import Mathlib

/-! The `option` package: optional values with a JSON mapping, and the `ecdsa`
wrapper.

A shallow embedding of `src/option/option.go` and `src/ecdsa/ecdsa.go`.

* A Go byte slice is a list of naturals below 256.
* A Go pointer `*T` is `none` (nil) or `some a`, an address in a heap of `T` cells.
  Every function that reads through a pointer takes the heap, every function that
  lets a variable escape (`&v`) returns the extended heap.
* The zero value of a Go type `T` is `default` of `Inhabited T`.
* `encoding/json`, `bytes`, `unicode` and `unicode/utf8` belong to the Go standard
  library. `bytes.TrimSpace` and what it calls are modelled after the library; the
  JSON encoder and decoder of the element type are arguments of the two JSON
  methods, and are given concretely for the element types `int`, `*int` and
  `chan int`. SHA-256 and the signature primitives of `crypto/ecdsa` are arguments
  of the functions of `ecdsa`.
* A Go function value passed to `Map` or `FlatMap` is a function on the state it
  can change.
-/

set_option autoImplicit false

/-- A Go `[]byte`; every element is a byte value (below 256). -/
abbrev Bytes := List Nat

/-- A Go pointer `*T`: `none` is nil, `some a` is the address of heap cell `a`. -/
abbrev Pointer := Option Nat

/-- A Go `error` result with concrete error values of type `E`: `none` is nil. -/
abbrev GoError (E : Type) := Option E

deriving instance DecidableEq for Except

/-- The `error` of a Go result pair `(x, err)`. -/
def errOf {E A : Type} : Except E A → GoError E
  | .ok _ => none
  | .error err => some err

/-- The variables of type `T` that have escaped to the heap; the address of a cell
is its index. Go never produces a non-nil pointer to a cell that is not there. -/
structure Heap (T : Type) where
  cells : List T
deriving DecidableEq, Repr

namespace Heap

variable {T : Type}

/-- Address `a` is an allocated cell. -/
def live (h : Heap T) (a : Nat) : Prop := a < h.cells.length

instance (h : Heap T) (a : Nat) : Decidable (h.live a) := by
  unfold live; infer_instance

/-- Read `*p` for `p = some a`. -/
def load [Inhabited T] (h : Heap T) (a : Nat) : T := h.cells.getD a default

/-- Assign `*p = v` for `p = some a`. -/
def store (h : Heap T) (a : Nat) (v : T) : Heap T := { cells := h.cells.set a v }

/-- Take `&v` of a variable holding `v` that escapes: a fresh cell and its address. -/
def alloc (h : Heap T) (v : T) : Nat × Heap T := (h.cells.length, { cells := h.cells ++ [v] })

end Heap

/-! ## Standard library: `unicode/utf8`, `unicode`, `bytes` -/

namespace utf8

def RuneError : Nat := 0xFFFD
def RuneSelf : Nat := 0x80
def UTFMax : Nat := 4

def locb : Nat := 0x80
def hicb : Nat := 0xBF
def maskx : Nat := 0x3F
def mask2 : Nat := 0x1F
def mask3 : Nat := 0x0F
def mask4 : Nat := 0x07

def xx : Nat := 0xF1
def as : Nat := 0xF0
def s1 : Nat := 0x02
def s2 : Nat := 0x13
def s3 : Nat := 0x03
def s4 : Nat := 0x23
def s5 : Nat := 0x34
def s6 : Nat := 0x04
def s7 : Nat := 0x44

/-- The table `first`: information about the first byte of a UTF-8 sequence. -/
def first (b : Nat) : Nat :=
  if b < 0x80 then as
  else if b < 0xC2 then xx
  else if b < 0xE0 then s1
  else if b = 0xE0 then s2
  else if b < 0xED then s3
  else if b = 0xED then s4
  else if b < 0xF0 then s3
  else if b = 0xF0 then s5
  else if b < 0xF4 then s6
  else if b = 0xF4 then s7
  else xx

/-- The table `acceptRanges`: lowest and highest admissible second byte. -/
def acceptRanges (i : Nat) : Nat × Nat :=
  match i with
  | 0 => (locb, hicb)
  | 1 => (0xA0, hicb)
  | 2 => (locb, 0x9F)
  | 3 => (0x90, hicb)
  | 4 => (locb, 0x8F)
  | _ => (0, 0)

/-- `utf8.DecodeRune(p)`: the first rune of `p` and its width in bytes; an invalid
encoding gives `(RuneError, 1)`, an empty slice `(RuneError, 0)`. -/
def DecodeRune (p : Bytes) : Nat × Nat :=
  match p with
  | [] => (RuneError, 0)
  | p0 :: _ =>
    let x := first p0
    if x ≥ as then
      -- the mask is all ones exactly when the low bit of x is set (x = xx)
      (if x % 2 = 1 then RuneError else p0, 1)
    else
      let sz := x &&& 7
      let accept := acceptRanges (x >>> 4)
      if p.length < sz then (RuneError, 1)
      else
        let b1 := p.getD 1 0
        if b1 < accept.1 ∨ accept.2 < b1 then (RuneError, 1)
        else if sz ≤ 2 then (((p0 &&& mask2) <<< 6) ||| (b1 &&& maskx), 2)
        else
          let b2 := p.getD 2 0
          if b2 < locb ∨ hicb < b2 then (RuneError, 1)
          else if sz ≤ 3 then
            (((p0 &&& mask3) <<< 12) ||| ((b1 &&& maskx) <<< 6) ||| (b2 &&& maskx), 3)
          else
            let b3 := p.getD 3 0
            if b3 < locb ∨ hicb < b3 then (RuneError, 1)
            else
              (((p0 &&& mask4) <<< 18) ||| ((b1 &&& maskx) <<< 12) |||
                ((b2 &&& maskx) <<< 6) ||| (b3 &&& maskx), 4)

/-- `utf8.RuneStart(b)`: `b` is not a continuation byte. -/
def RuneStart (b : Nat) : Bool := (b &&& 0xC0) != 0x80

/-- The backwards scan of `DecodeLastRune`,
`for start--; start >= lim; start-- { if RuneStart(p[start]) { break } }`,
on `k = start + 1` (so that `start = -1` is `k = 0`). -/
def scanRuneStart (p : Bytes) (lim : Nat) : Nat → Nat
  | 0 => 0
  | k + 1 =>
    if lim ≤ k then
      if RuneStart (p.getD k 0) then k + 1 else scanRuneStart p lim k
    else k + 1

/-- `utf8.DecodeLastRune(p)`: the last rune of `p` and its width in bytes. -/
def DecodeLastRune (p : Bytes) : Nat × Nat :=
  let stop := p.length
  if stop = 0 then (RuneError, 0)
  else
    let r := p.getD (stop - 1) 0
    if r < RuneSelf then (r, 1)
    else
      let lim := stop - UTFMax
      -- start-- from stop - 1, then the scan; a negative start becomes 0
      let start := scanRuneStart p lim (stop - 1) - 1
      let (r, size) := DecodeRune (p.drop start)
      if start + size ≠ stop then (RuneError, 1) else (r, size)

end utf8

namespace unicode

def MaxLatin1 : Nat := 0xFF

/-- `unicode.IsSpace(r)`: the Latin-1 spaces, else the `White_Space` range table. -/
def IsSpace (r : Nat) : Bool :=
  if r ≤ MaxLatin1 then
    r == 0x09 || r == 0x0A || r == 0x0B || r == 0x0C || r == 0x0D || r == 0x20 ||
      r == 0x85 || r == 0xA0
  else
    r == 0x1680 || (0x2000 ≤ r && r ≤ 0x200A) || (0x2028 ≤ r && r ≤ 0x2029) ||
      r == 0x202F || r == 0x205F || r == 0x3000

end unicode

namespace bytes

/-- `bytes.Equal(a, b)`: same length and same bytes (nil equals empty). -/
def Equal (a b : Bytes) : Bool := a == b

/-- The table `asciiSpace`. -/
def asciiSpace (c : Nat) : Bool :=
  c == 0x09 || c == 0x0A || c == 0x0B || c == 0x0C || c == 0x0D || c == 0x20

/-- `bytes.TrimLeftFunc(s, unicode.IsSpace)`: drop leading runes that are spaces.
`skip` counts the bytes of the current rune still to be stepped over. -/
def trimLeftSpace : Nat → Bytes → Bytes
  | _, [] => []
  | skip + 1, _ :: rest => trimLeftSpace skip rest
  | 0, c :: rest =>
    let (r, wid) := if c ≥ utf8.RuneSelf then utf8.DecodeRune (c :: rest) else (c, 1)
    if unicode.IsSpace r then trimLeftSpace (wid - 1) rest else c :: rest

/-- `lastIndexFunc(s, unicode.IsSpace, false)` with the loop variable at `i`: the
index of the first byte of the last rune that is not a space, or -1. -/
def lastIndexNotSpace (s : Bytes) : Nat → Nat → Int
  | 0, _ => -1
  | i + 1, skip + 1 => lastIndexNotSpace s i skip
  | i + 1, 0 =>
    let c := s.getD i 0
    let (r, size) := if c ≥ utf8.RuneSelf then utf8.DecodeLastRune (s.take (i + 1)) else (c, 1)
    if unicode.IsSpace r then lastIndexNotSpace s i (size - 1) else ((i + 1 - size : Nat) : Int)

/-- `bytes.TrimRightFunc(s, unicode.IsSpace)`. -/
def trimRightSpace (s : Bytes) : Bytes :=
  match lastIndexNotSpace s s.length 0 with
  | Int.ofNat i =>
    if s.getD i 0 ≥ utf8.RuneSelf then s.take (i + (utf8.DecodeRune (s.drop i)).2)
    else s.take (i + 1)
  | Int.negSucc _ => s.take 0

/-- `bytes.TrimFunc(s, unicode.IsSpace)`. -/
def trimFuncSpace (s : Bytes) : Bytes := trimRightSpace (trimLeftSpace 0 s)

/-- The second loop of `bytes.TrimSpace`, on the reversal of `s[start:]`: step back
over ASCII spaces from the end; a non-ASCII byte hands `s[start:stop]` to the
Unicode-aware `TrimFunc`. -/
def trimSpaceStop : Bytes → Bytes
  | [] => []
  | c :: rest =>
    if c ≥ utf8.RuneSelf then trimFuncSpace (c :: rest).reverse
    else if asciiSpace c then trimSpaceStop rest
    else (c :: rest).reverse

/-- The first loop of `bytes.TrimSpace` followed by the second: step over ASCII
spaces from the front; a non-ASCII byte hands `s[start:]` to `TrimFunc`. -/
def trimSpaceStart : Bytes → Bytes
  | [] => trimSpaceStop []
  | c :: rest =>
    if c ≥ utf8.RuneSelf then trimFuncSpace (c :: rest)
    else if asciiSpace c then trimSpaceStart rest
    else trimSpaceStop (c :: rest).reverse

/-- `bytes.TrimSpace(s)`: `s` without leading and trailing white space, as defined
by Unicode. -/
def TrimSpace (s : Bytes) : Bytes := trimSpaceStart s

end bytes

/-! ## Standard library: `encoding/json` at the element types used below -/

namespace json

/-- The errors of `encoding/json`, by the call that reports them: `decode` stands
for the errors of `json.Unmarshal` (`*SyntaxError`, `*UnmarshalTypeError`),
`unsupported` for those of `json.Marshal` (`*UnsupportedTypeError`,
`*UnsupportedValueError`). -/
inductive JsonError
  | decode
  | unsupported
deriving DecidableEq, Repr

/-- The JSON literal `null`, the Go expression `[]byte("null")`. -/
def nullLit : Bytes := [0x6E, 0x75, 0x6C, 0x6C]

/-- The decimal digits of `n`, most significant first, in front of `acc`. -/
def formatNat : Nat → Nat → Bytes → Bytes
  | 0, _, acc => acc
  | fuel + 1, n, acc =>
    let acc1 := (0x30 + n % 10) :: acc
    if n / 10 = 0 then acc1 else formatNat fuel (n / 10) acc1

/-- `strconv.FormatInt(i, 10)`. -/
def FormatInt (i : Int) : Bytes :=
  if i < 0 then 0x2D :: formatNat (i.natAbs + 1) i.natAbs []
  else formatNat (i.natAbs + 1) i.natAbs []

/-- The scanner's `isSpace`: the four white space characters of JSON. -/
def isSpace (c : Nat) : Bool := c == 0x20 || c == 0x09 || c == 0x0D || c == 0x0A

/-- A JSON text without the white space around its value. -/
def trimJSONSpace (data : Bytes) : Bytes :=
  ((data.dropWhile isSpace).reverse.dropWhile isSpace).reverse

def isDigit (c : Nat) : Bool := 0x30 ≤ c && c ≤ 0x39

/-- The value of a string of decimal digits. -/
def digitsValue (ds : Bytes) : Nat := ds.foldl (fun n d => 10 * n + (d - 0x30)) 0

/-- A JSON number without sign, fraction or exponent: `0`, or digits that do not
start with `0`. -/
def natLiteral (ds : Bytes) : Option Nat :=
  match ds with
  | [] => none
  | [0x30] => some 0
  | d :: rest =>
    if 0x31 ≤ d ∧ d ≤ 0x39 ∧ rest.all isDigit then some (digitsValue (d :: rest)) else none

/-- A JSON number that `strconv.ParseInt` reads as an integer. -/
def intLiteral (body : Bytes) : Option Int :=
  match body with
  | 0x2D :: ds => (natLiteral ds).map (fun n => -(n : Int))
  | ds => (natLiteral ds).map (fun n => (n : Int))

/-- The bounds of Go's `int` (64 bits). -/
def inIntRange (i : Int) : Bool := -(2 ^ 63 : Int) ≤ i && i < (2 ^ 63 : Int)

/-- `json.Marshal(v)` for `v` of type `int`. -/
def MarshalInt (v : Int) : Except JsonError Bytes := .ok (FormatInt v)

/-- `var v int; err := json.Unmarshal(data, &v)`: the value of `v` when `err` is
nil. `null` leaves `v` at zero, an integer literal in range is stored, every other
input is an error. -/
def UnmarshalInt (data : Bytes) : Except JsonError Int :=
  let body := trimJSONSpace data
  if body = nullLit then .ok 0
  else
    match intLiteral body with
    | some i => if inIntRange i then .ok i else .error .decode
    | none => .error .decode

/-- A value of type `*int` as JSON sees it: nil, or a pointer to an integer. -/
abbrev IntPtr := Option Int

/-- `json.Marshal(v)` for `v` of type `*int`: a nil pointer encodes as `null`, any
other as the integer it points to. -/
def MarshalIntPtr (v : IntPtr) : Except JsonError Bytes :=
  match v with
  | none => .ok nullLit
  | some i => .ok (FormatInt i)

/-- `var v *int; err := json.Unmarshal(data, &v)`: `null` sets the pointer to nil,
an integer literal in range makes it point to a new integer. -/
def UnmarshalIntPtr (data : Bytes) : Except JsonError IntPtr :=
  let body := trimJSONSpace data
  if body = nullLit then .ok none
  else
    match intLiteral body with
    | some i => if inIntRange i then .ok (some i) else .error .decode
    | none => .error .decode

/-- A value of type `chan int`: nil, or the identity of a channel. -/
abbrev ChanInt := Option Nat

/-- `json.Marshal(v)` for `v` of type `chan int`: channels have no JSON encoding. -/
def MarshalChanInt (_ : ChanInt) : Except JsonError Bytes := .error .unsupported

/-- The bytes on which the scanner's `stateBeginValue` goes on: the first byte of an
object, array, string, number, `true`, `false` or `null`. -/
def beginsValue (c : Nat) : Bool :=
  c == 0x7B || c == 0x5B || c == 0x22 || c == 0x2D || isDigit c ||
    c == 0x74 || c == 0x66 || c == 0x6E

/-- The start of the scanner on `data`: JSON white space is skipped and the next
byte has to begin a value. Every valid JSON text passes; a text that does not is
rejected by `json.Valid` and by `json.Unmarshal` at every type. -/
def beginsText (data : Bytes) : Bool :=
  match data.dropWhile isSpace with
  | [] => false
  | c :: _ => beginsValue c

end json

/-! ## The package `option` -/

namespace option

open json (nullLit)

/-- Option wraps an optional value. A nil pointer represents None. -/
structure Option (T : Type) where
  value : Pointer
deriving DecidableEq, Repr

variable {T E : Type}

/-- `Some(v)`: the parameter `v` escapes, the Option points to its cell. -/
def Some (h : Heap T) (v : T) : Option T × Heap T :=
  let (a, h1) := h.alloc v
  ({ value := some a }, h1)

/-- `None[T]()`. -/
def None : Option T := { value := none }

/-- `FromPtr(ptr)`: the Option stores `ptr` itself. -/
def FromPtr (ptr : Pointer) : Option T := { value := ptr }

/-- `o.IsSome()`. -/
def Option.IsSome (o : Option T) : Bool := o.value != none

/-- `o.IsNone()`. -/
def Option.IsNone (o : Option T) : Bool := o.value == none

/-- `o.IsZero()`. -/
def Option.IsZero (o : Option T) : Bool := o.value == none

/-- `o.Ptr()`. -/
def Option.Ptr (o : Option T) : Pointer := o.value

/-- `o.Value()`. -/
def Option.Value [Inhabited T] (h : Heap T) (o : Option T) : T × Bool :=
  match o.value with
  | none => (default, false)
  | some a => (h.load a, true)

/-- `o.ValueOr(fallback)`. -/
def Option.ValueOr [Inhabited T] (h : Heap T) (o : Option T) (fallback : T) : T :=
  match o.value with
  | none => fallback
  | some a => h.load a

/-- `o.MarshalJSON()`, with `marshal` for `json.Marshal` at type `T`. -/
def Option.MarshalJSON [Inhabited T] (marshal : T → Except E Bytes) (h : Heap T)
    (o : Option T) : Except E Bytes :=
  match o.value with
  | none => .ok nullLit
  | some a => marshal (h.load a)

/-- `o.UnmarshalJSON(data)` on the receiver `o`, with `unmarshal data` for
`var v T; err := json.Unmarshal(data, &v)`. The result is the error, the receiver
after the call and the heap after the call; `v` gets its cell where it is stored
in the receiver, on the other path nothing refers to it after the return. -/
def Option.UnmarshalJSON (unmarshal : Bytes → Except E T) (h : Heap T) (o : Option T)
    (data : Bytes) : GoError E × Option T × Heap T :=
  if bytes.Equal (bytes.TrimSpace data) nullLit then
    (none, { o with value := none }, h)
  else
    match unmarshal data with
    | .error err => (some err, o, h)
    | .ok v =>
      let (a, h1) := h.alloc v
      (none, { o with value := some a }, h1)

/-- `Map(o, f)`. A Go function value may have effects: `f` is run on the state `s`
of what it can change and returns that state after the call, so that a call of `f`
shows in the result. `hT` holds the cells of type `T` at the call; the result
points into the heap of `U` cells, extended by `Some`. -/
def Map {U S : Type} [Inhabited T] (hT : Heap T) (hU : Heap U) (o : Option T)
    (f : T → S → U × S) (s : S) : Option U × Heap U × S :=
  match o.value with
  | none => (None, hU, s)
  | some a =>
    let (u, s1) := f (hT.load a) s
    let (r, hU1) := Some hU u
    (r, hU1, s1)

/-- `FlatMap(o, f)`. The function value `f` is run on the state `w` of what it can
change, which includes the heap of `U` cells its result may point into, and
returns that state after the call. `hT` holds the cells of type `T` at the call. -/
def FlatMap {U W : Type} [Inhabited T] (hT : Heap T) (o : Option T)
    (f : T → W → Option U × W) (w : W) : Option U × W :=
  match o.value with
  | none => (None, w)
  | some a => f (hT.load a) w

end option

/-! ## Standard library: `crypto/ecdsa` -/

namespace crypto.ecdsa

/-- The struct `ecdsa.PublicKey`: a curve (by its identity) and a point. -/
structure PublicKey where
  Curve : Nat
  X : Int
  Y : Int
deriving DecidableEq, Repr, Inhabited

/-- The struct `ecdsa.PrivateKey`: the embedded public key and the secret `D`. -/
structure PrivateKey where
  PublicKey : PublicKey
  D : Int
deriving DecidableEq, Repr, Inhabited

/-- A Go `*ecdsa.PublicKey`: nil, the address of a public key of its own, or the
address `&priv.PublicKey` of the field embedded in the private key at `priv`. -/
inductive PublicKeyPointer
  | nil
  | cell (a : Nat)
  | embedded (priv : Nat)
deriving DecidableEq, Repr

/-- Read `*pub` for a non-nil `pub`. -/
def PublicKeyPointer.load (hk : Heap PrivateKey) (hp : Heap PublicKey) :
    PublicKeyPointer → PublicKey
  | .nil => default
  | .cell a => hp.load a
  | .embedded priv => (hk.load priv).PublicKey

end crypto.ecdsa

/-! ## The package `ecdsa` -/

namespace ecdsa

open crypto.ecdsa (PrivateKey PublicKeyPointer)

/-- The Go errors the package returns: those it makes with `errors.New`, and those
handed on from `crypto/ecdsa`. -/
inductive Error (E : Type)
  | New (text : String)
  | lib (err : E)
deriving DecidableEq, Repr

variable {E R : Type}

/-- `Sign(priv, message)`, with `Sum256` for `sha256.Sum256`, `SignASN1` for
`ecdsa.SignASN1` reading the key `*priv`, and `rnd` for what `rand.Reader`
delivers. The result is the pair of signature and error. -/
def Sign (Sum256 : Bytes → Bytes) (SignASN1 : R → PrivateKey → Bytes → Bytes × GoError E)
    (hk : Heap PrivateKey) (rnd : R) (priv : Pointer) (message : Bytes) :
    Bytes × GoError (Error E) :=
  match priv with
  | none => ([], some (Error.New "ecdsa: private key is nil"))
  | some a =>
    let hash := Sum256 message
    let (sig, err) := SignASN1 rnd (hk.load a) hash
    (sig, err.map Error.lib)

/-- `Verify(pub, message, signature)`, with `VerifyASN1` for `ecdsa.VerifyASN1`
reading the key `*pub`. -/
def Verify (Sum256 : Bytes → Bytes)
    (VerifyASN1 : crypto.ecdsa.PublicKey → Bytes → Bytes → Bool)
    (hk : Heap PrivateKey) (hp : Heap crypto.ecdsa.PublicKey) (pub : PublicKeyPointer)
    (message signature : Bytes) : Bool :=
  match pub with
  | .nil => false
  | pub =>
    let hash := Sum256 message
    VerifyASN1 (pub.load hk hp) hash signature

/-- `PublicKey(priv)`: the address of the public key embedded in `*priv`. -/
def PublicKey (priv : Pointer) : PublicKeyPointer × GoError (Error E) :=
  match priv with
  | none => (.nil, some (Error.New "ecdsa: private key is nil"))
  | some a => (.embedded a, none)

end ecdsa

/-! ## Lemmas on the heap and on `bytes.TrimSpace` -/

theorem Heap.load_alloc {T : Type} [Inhabited T] (h : Heap T) (v : T) :
    (h.alloc v).2.load (h.alloc v).1 = v := by
  simp [Heap.alloc, Heap.load, List.getD_eq_getElem?_getD]

theorem Heap.load_store_same {T : Type} [Inhabited T] (h : Heap T) (a : Nat) (w : T)
    (hl : h.live a) : (h.store a w).load a = w := by
  unfold Heap.live at hl
  simp [Heap.store, Heap.load, List.getD_eq_getElem?_getD, hl]

theorem Heap.load_store_other {T : Type} [Inhabited T] (h : Heap T) (a b : Nat) (w : T)
    (hab : a ≠ b) : (h.store a w).load b = h.load b := by
  simp [Heap.store, Heap.load, List.getD_eq_getElem?_getD, List.getElem?_set_ne hab]

theorem bytes.Equal_iff (a b : Bytes) : bytes.Equal a b = true ↔ a = b := by
  simp [bytes.Equal]

theorem bytes.asciiSpace_lt {c : Nat} (hc : bytes.asciiSpace c = true) : ¬ c ≥ utf8.RuneSelf := by
  simp only [bytes.asciiSpace, Bool.or_eq_true, beq_iff_eq] at hc
  simp only [utf8.RuneSelf]
  omega

theorem bytes.trimSpaceStart_spaces (pre rest : Bytes)
    (hpre : ∀ c ∈ pre, bytes.asciiSpace c = true) :
    bytes.trimSpaceStart (pre ++ rest) = bytes.trimSpaceStart rest := by
  induction pre with
  | nil => rfl
  | cons c cs ih =>
    have hc : bytes.asciiSpace c = true := hpre c (List.mem_cons_self c cs)
    have ih1 := ih (fun d hd => hpre d (List.mem_cons_of_mem c hd))
    rw [List.cons_append, bytes.trimSpaceStart]
    simp only [bytes.asciiSpace_lt hc, hc, if_true, if_false]
    exact ih1

theorem bytes.trimSpaceStop_spaces (post rest : Bytes)
    (hpost : ∀ c ∈ post, bytes.asciiSpace c = true) :
    bytes.trimSpaceStop (post ++ rest) = bytes.trimSpaceStop rest := by
  induction post with
  | nil => rfl
  | cons c cs ih =>
    have hc : bytes.asciiSpace c = true := hpost c (List.mem_cons_self c cs)
    have ih1 := ih (fun d hd => hpost d (List.mem_cons_of_mem c hd))
    rw [List.cons_append, bytes.trimSpaceStop]
    simp only [bytes.asciiSpace_lt hc, hc, if_true, if_false]
    exact ih1

/-- White space of ASCII around `null` is trimmed away: `TrimSpace` returns `null`
for every input made of ASCII spaces, `null`, ASCII spaces. -/
theorem bytes.TrimSpace_padded_null (pre post : Bytes)
    (hpre : ∀ c ∈ pre, bytes.asciiSpace c = true)
    (hpost : ∀ c ∈ post, bytes.asciiSpace c = true) :
    bytes.TrimSpace (pre ++ json.nullLit ++ post) = json.nullLit := by
  have hrev : ∀ c ∈ post.reverse, bytes.asciiSpace c = true :=
    fun c hc => hpost c (List.mem_reverse.mp hc)
  have h1 : bytes.trimSpaceStart (json.nullLit ++ post)
      = bytes.trimSpaceStop (post.reverse ++ json.nullLit.reverse) := by
    simp [json.nullLit, bytes.trimSpaceStart, utf8.RuneSelf, bytes.asciiSpace]
  rw [bytes.TrimSpace, List.append_assoc, bytes.trimSpaceStart_spaces pre _ hpre, h1,
    bytes.trimSpaceStop_spaces _ _ hrev]
  rfl

/-! ## The JSON mapping -/

namespace option

open json

/-- C1, as stated, fails: at element type `*int` the nil pointer is encoded as
`null` and decoded back to nil by the standard codec (the codec is reversible on
it), yet `Some(nil)` marshalled and unmarshalled into a fresh Option is absent. -/
theorem roundtrip_Some_nil_pointer_absent :
    (MarshalIntPtr none = .ok nullLit ∧ UnmarshalIntPtr nullLit = .ok none) ∧
    (Some (⟨[]⟩ : Heap IntPtr) none).1.IsSome = true ∧
    (Some (⟨[]⟩ : Heap IntPtr) none).1.MarshalJSON MarshalIntPtr
        (Some (⟨[]⟩ : Heap IntPtr) none).2 = .ok nullLit ∧
    ((None : Option IntPtr).UnmarshalJSON UnmarshalIntPtr
        (Some (⟨[]⟩ : Heap IntPtr) none).2 nullLit).1 = none ∧
    ((None : Option IntPtr).UnmarshalJSON UnmarshalIntPtr
        (Some (⟨[]⟩ : Heap IntPtr) none).2 nullLit).2.1.IsSome = false := by
  decide

/-- C1, amended: when the standard codec of `T` is reversible on `v` (`v` encodes
to `b` and `b` decodes to `v`) and `b`, trimmed of white space, is not `null`, then
`Some(v).MarshalJSON()` returns `b`, and `UnmarshalJSON(b)` on a fresh Option
returns no error and leaves it present with the stored value `v`. -/
theorem roundtrip_Some {T E : Type} [Inhabited T] (marshal : T → Except E Bytes)
    (unmarshal : Bytes → Except E T) (h : Heap T) (v : T) (b : Bytes)
    (henc : marshal v = .ok b) (hdec : unmarshal b = .ok v)
    (hnn : bytes.TrimSpace b ≠ nullLit) :
    (Some h v).1.MarshalJSON marshal (Some h v).2 = .ok b ∧
    ((None : Option T).UnmarshalJSON unmarshal (Some h v).2 b).1 = none ∧
    ((None : Option T).UnmarshalJSON unmarshal (Some h v).2 b).2.1.IsSome = true ∧
    ((None : Option T).UnmarshalJSON unmarshal (Some h v).2 b).2.1.Value
      ((None : Option T).UnmarshalJSON unmarshal (Some h v).2 b).2.2 = (v, true) := by
  have hne : bytes.Equal (bytes.TrimSpace b) nullLit = false := by
    cases hq : bytes.Equal (bytes.TrimSpace b) nullLit
    · rfl
    · exact absurd ((bytes.Equal_iff _ _).mp hq) hnn
  refine ⟨?_, ?_, ?_, ?_⟩
  · show marshal ((h.alloc v).2.load (h.alloc v).1) = .ok b
    rw [Heap.load_alloc, henc]
  · simp [Option.UnmarshalJSON, hne, hdec]
  · simp [Option.UnmarshalJSON, hne, hdec, Option.IsSome]
  · simp only [Option.UnmarshalJSON, hne, hdec, Option.Value]
    simp [Heap.load_alloc]

/-- The amended C1 at element type `int`, `v = 42`: `42` travels as the bytes `42`. -/
theorem roundtrip_Some_witness :
    (MarshalInt 42 = .ok [0x34, 0x32] ∧ UnmarshalInt [0x34, 0x32] = .ok 42 ∧
      bytes.TrimSpace [0x34, 0x32] ≠ nullLit) ∧
    ((Some (⟨[]⟩ : Heap Int) 42).1.MarshalJSON MarshalInt (Some (⟨[]⟩ : Heap Int) 42).2
        = .ok [0x34, 0x32] ∧
      ((None : Option Int).UnmarshalJSON UnmarshalInt (Some (⟨[]⟩ : Heap Int) 42).2
        [0x34, 0x32]).1 = none ∧
      ((None : Option Int).UnmarshalJSON UnmarshalInt (Some (⟨[]⟩ : Heap Int) 42).2
        [0x34, 0x32]).2.1.IsSome = true ∧
      ((None : Option Int).UnmarshalJSON UnmarshalInt (Some (⟨[]⟩ : Heap Int) 42).2
        [0x34, 0x32]).2.1.Value
        ((None : Option Int).UnmarshalJSON UnmarshalInt (Some (⟨[]⟩ : Heap Int) 42).2
          [0x34, 0x32]).2.2 = (42, true)) :=
  ⟨by decide,
    roundtrip_Some MarshalInt UnmarshalInt ⟨[]⟩ 42 [0x34, 0x32] (by decide) (by decide)
      (by decide)⟩

/-- C2: `None[T]().MarshalJSON()` returns bytes and no error, and `UnmarshalJSON`
of those bytes on any Option returns no error and leaves it absent. -/
theorem roundtrip_None {T E : Type} [Inhabited T] (marshal : T → Except E Bytes)
    (unmarshal : Bytes → Except E T) (h : Heap T) (o : Option T) :
    ∃ b : Bytes, (None : Option T).MarshalJSON marshal h = .ok b ∧
      (o.UnmarshalJSON unmarshal h b).1 = none ∧
      (o.UnmarshalJSON unmarshal h b).2.1.IsNone = true ∧
      (o.UnmarshalJSON unmarshal h b).2.1.IsSome = false := by
  refine ⟨nullLit, rfl, ?_, ?_, ?_⟩
  · have hq : bytes.Equal (bytes.TrimSpace nullLit) nullLit = true := by decide
    simp [Option.UnmarshalJSON, hq]
  · have hq : bytes.Equal (bytes.TrimSpace nullLit) nullLit = true := by decide
    simp [Option.UnmarshalJSON, hq, Option.IsNone]
  · have hq : bytes.Equal (bytes.TrimSpace nullLit) nullLit = true := by decide
    simp [Option.UnmarshalJSON, hq, Option.IsSome]

/-- C3: `MarshalJSON` of an absent Option returns the four bytes `null` and no
error; `MarshalJSON` of a present Option holding `v` returns exactly the result of
the standard encoder on `v`, bytes or error, with nothing added. -/
theorem MarshalJSON_wire {T E : Type} [Inhabited T] (marshal : T → Except E Bytes)
    (h : Heap T) (o : Option T) :
    (o.IsNone = true →
      o.MarshalJSON marshal h = .ok [0x6E, 0x75, 0x6C, 0x6C] ∧
        ([0x6E, 0x75, 0x6C, 0x6C] : Bytes).length = 4) ∧
    (∀ v : T, o.Value h = (v, true) → o.MarshalJSON marshal h = marshal v) := by
  obtain ⟨p⟩ := o
  cases p with
  | none =>
    refine ⟨fun _ => ⟨rfl, rfl⟩, fun v hv => ?_⟩
    simp [Option.Value] at hv
  | some a =>
    refine ⟨fun hn => ?_, fun v hv => ?_⟩
    · simp [Option.IsNone] at hn
    · simp only [Option.Value, Prod.mk.injEq, and_true] at hv
      simp only [Option.MarshalJSON, hv]

/-- C3 at element type `int`: the absent Option encodes as `null`, the Option
present with 42 encodes as the bare integer, `42`. -/
theorem MarshalJSON_wire_witness :
    ((None : Option Int).IsNone = true ∧
      (None : Option Int).MarshalJSON MarshalInt ⟨[42]⟩ = .ok [0x6E, 0x75, 0x6C, 0x6C]) ∧
    ((FromPtr (some 0) : Option Int).Value ⟨[42]⟩ = (42, true) ∧
      (FromPtr (some 0) : Option Int).MarshalJSON MarshalInt ⟨[42]⟩ = MarshalInt 42) :=
  ⟨⟨by decide, ((MarshalJSON_wire MarshalInt ⟨[42]⟩ None).1 (by decide)).1⟩,
    ⟨by decide, (MarshalJSON_wire MarshalInt ⟨[42]⟩ (FromPtr (some 0))).2 42 (by decide)⟩⟩

end option

namespace option

open json

/-- C4: when `data`, trimmed of surrounding white space, is exactly `null`,
`UnmarshalJSON(data)` returns no error and leaves the Option absent, whatever its
state was (the heap is untouched); the result does not mention the decoder of `T`,
which is not consulted. -/
theorem UnmarshalJSON_null {T E : Type} (unmarshal : Bytes → Except E T) (h : Heap T)
    (o : Option T) (data : Bytes) (hnull : bytes.TrimSpace data = nullLit) :
    o.UnmarshalJSON unmarshal h data = (none, None, h) ∧
    (o.UnmarshalJSON unmarshal h data).2.1.IsNone = true := by
  have hq : bytes.Equal (bytes.TrimSpace data) nullLit = true := (bytes.Equal_iff _ _).mpr hnull
  constructor
  · simp [Option.UnmarshalJSON, hq, None]
  · simp [Option.UnmarshalJSON, hq, Option.IsNone]

/-- C4 on the bytes `"  null  "`, for an Option that was present with 7 and a
decoder that would fail on every input. -/
theorem UnmarshalJSON_null_witness :
    bytes.TrimSpace [0x20, 0x20, 0x6E, 0x75, 0x6C, 0x6C, 0x20, 0x20] = nullLit ∧
    ((FromPtr (some 0) : Option Int).UnmarshalJSON
        (fun _ => (Except.error JsonError.decode : Except JsonError Int)) ⟨[7]⟩
        [0x20, 0x20, 0x6E, 0x75, 0x6C, 0x6C, 0x20, 0x20] = (none, None, ⟨[7]⟩) ∧
      ((FromPtr (some 0) : Option Int).UnmarshalJSON
        (fun _ => (Except.error JsonError.decode : Except JsonError Int)) ⟨[7]⟩
        [0x20, 0x20, 0x6E, 0x75, 0x6C, 0x6C, 0x20, 0x20]).2.1.IsNone = true) :=
  ⟨by decide, UnmarshalJSON_null _ ⟨[7]⟩ (FromPtr (some 0)) _ (by decide)⟩

/-- C5: when `data`, trimmed of white space, is not `null`, the error of
`UnmarshalJSON(data)` is the error of the standard decoder on `data` (nil exactly
when the decoder succeeds), and on success the Option is present and holds the
decoded value, the zero value included. At element type `int`: `42` gives
`Some(42)`, `0` gives a present `Some(0)`, and `"abc"` fails. -/
theorem UnmarshalJSON_value {T E : Type} [Inhabited T] (unmarshal : Bytes → Except E T)
    (h : Heap T) (o : Option T) (data : Bytes) (hnn : bytes.TrimSpace data ≠ nullLit) :
    ((o.UnmarshalJSON unmarshal h data).1 = errOf (unmarshal data) ∧
      (∀ v : T, unmarshal data = .ok v →
        (o.UnmarshalJSON unmarshal h data).1 = none ∧
        (o.UnmarshalJSON unmarshal h data).2.1.IsSome = true ∧
        (o.UnmarshalJSON unmarshal h data).2.1.Value
          (o.UnmarshalJSON unmarshal h data).2.2 = (v, true))) ∧
    (((None : Option Int).UnmarshalJSON UnmarshalInt ⟨[]⟩ [0x34, 0x32]).1 = none ∧
      ((None : Option Int).UnmarshalJSON UnmarshalInt ⟨[]⟩ [0x34, 0x32]).2.1.Value
        ((None : Option Int).UnmarshalJSON UnmarshalInt ⟨[]⟩ [0x34, 0x32]).2.2 = (42, true)) ∧
    (((None : Option Int).UnmarshalJSON UnmarshalInt ⟨[]⟩ [0x30]).1 = none ∧
      ((None : Option Int).UnmarshalJSON UnmarshalInt ⟨[]⟩ [0x30]).2.1.IsSome = true ∧
      ((None : Option Int).UnmarshalJSON UnmarshalInt ⟨[]⟩ [0x30]).2.1.Value
        ((None : Option Int).UnmarshalJSON UnmarshalInt ⟨[]⟩ [0x30]).2.2 = (0, true)) ∧
    ((None : Option Int).UnmarshalJSON UnmarshalInt ⟨[]⟩
        [0x22, 0x61, 0x62, 0x63, 0x22]).1 = some JsonError.decode := by
  have hne : bytes.Equal (bytes.TrimSpace data) nullLit = false := by
    cases hq : bytes.Equal (bytes.TrimSpace data) nullLit
    · rfl
    · exact absurd ((bytes.Equal_iff _ _).mp hq) hnn
  refine ⟨⟨?_, fun v hv => ⟨?_, ?_, ?_⟩⟩, by decide, by decide, by decide⟩
  · cases hd : unmarshal data <;> simp [Option.UnmarshalJSON, hne, hd, errOf]
  · simp [Option.UnmarshalJSON, hne, hv]
  · simp [Option.UnmarshalJSON, hne, hv, Option.IsSome]
  · simp only [Option.UnmarshalJSON, hne, hv, Option.Value]
    simp [Heap.load_alloc]

/-- C5 at element type `int` on the bytes `-17` surrounded by JSON white space,
for an Option that was present with 5: no error, present with -17. -/
theorem UnmarshalJSON_value_witness :
    bytes.TrimSpace [0x20, 0x2D, 0x31, 0x37, 0x0A] ≠ nullLit ∧
    UnmarshalInt [0x20, 0x2D, 0x31, 0x37, 0x0A] = .ok (-17) ∧
    ((FromPtr (some 0) : Option Int).UnmarshalJSON UnmarshalInt ⟨[5]⟩
        [0x20, 0x2D, 0x31, 0x37, 0x0A]).1 = none ∧
    ((FromPtr (some 0) : Option Int).UnmarshalJSON UnmarshalInt ⟨[5]⟩
        [0x20, 0x2D, 0x31, 0x37, 0x0A]).2.1.IsSome = true ∧
    ((FromPtr (some 0) : Option Int).UnmarshalJSON UnmarshalInt ⟨[5]⟩
        [0x20, 0x2D, 0x31, 0x37, 0x0A]).2.1.Value
      ((FromPtr (some 0) : Option Int).UnmarshalJSON UnmarshalInt ⟨[5]⟩
        [0x20, 0x2D, 0x31, 0x37, 0x0A]).2.2 = (-17, true) :=
  ⟨by decide, by decide,
    (UnmarshalJSON_value UnmarshalInt ⟨[5]⟩ (FromPtr (some 0)) [0x20, 0x2D, 0x31, 0x37, 0x0A]
      (by decide)).1.2 (-17) (by decide)⟩

/-- C6, as stated, fails: at element type `chan int` the standard encoder rejects
every value, and `MarshalJSON` of a present Option returns that error. -/
theorem MarshalJSON_chan_error :
    (Some (⟨[]⟩ : Heap ChanInt) (some 0)).1.IsSome = true ∧
    (Some (⟨[]⟩ : Heap ChanInt) (some 0)).1.MarshalJSON MarshalChanInt
        (Some (⟨[]⟩ : Heap ChanInt) (some 0)).2 = .error JsonError.unsupported ∧
    errOf ((Some (⟨[]⟩ : Heap ChanInt) (some 0)).1.MarshalJSON MarshalChanInt
        (Some (⟨[]⟩ : Heap ChanInt) (some 0)).2) ≠ none := by
  decide

/-- C6, amended: `MarshalJSON` returns a nil error for every absent Option, and
for a present Option it returns the error of the standard encoder on the stored
value, so its error is nil exactly when that encoder succeeds. -/
theorem MarshalJSON_error {T E : Type} [Inhabited T] (marshal : T → Except E Bytes)
    (h : Heap T) (o : Option T) :
    errOf (o.MarshalJSON marshal h) =
      if o.IsSome = true then errOf (marshal (o.Value h).1) else none := by
  obtain ⟨p⟩ := o
  cases p with
  | none => rfl
  | some a => rfl

end option

/-! ## Construction, inspection and extraction -/

namespace option

/-- C7, as stated, fails: with `p` pointing at a cell that holds 1,
`o := FromPtr(p)` returns `(1, true)` from `Value` and 1 from `ValueOr(9)`; after
`*p = 2` the same `o` returns `(2, true)` and 2. -/
theorem FromPtr_write_through_visible :
    (FromPtr (some 0) : Option Int).Value ⟨[1]⟩ = (1, true) ∧
    (FromPtr (some 0) : Option Int).ValueOr ⟨[1]⟩ 9 = 1 ∧
    (FromPtr (some 0) : Option Int).Value ((⟨[1]⟩ : Heap Int).store 0 2) = (2, true) ∧
    (FromPtr (some 0) : Option Int).ValueOr ((⟨[1]⟩ : Heap Int).store 0 2) 9 = 2 ∧
    (FromPtr (some 0) : Option Int).Value ((⟨[1]⟩ : Heap Int).store 0 2) ≠
      (FromPtr (some 0) : Option Int).Value ⟨[1]⟩ := by
  decide

/-- C7, amended: `FromPtr` of a non-nil pointer `p` yields a present Option that
holds `p` itself, not a copy of the referenced value: `Value` and `ValueOr(d)`
return what is stored at `p` at the time of the call, so after `*p = w` they return
`w`; a write to another address leaves them as they were. -/
theorem FromPtr_aliases {T : Type} [Inhabited T] (h : Heap T) (a : Nat) (w d : T)
    (hl : h.live a) :
    (FromPtr (some a) : Option T).IsSome = true ∧
    (FromPtr (some a) : Option T).Ptr = some a ∧
    (FromPtr (some a) : Option T).Value h = (h.load a, true) ∧
    (FromPtr (some a) : Option T).ValueOr h d = h.load a ∧
    (FromPtr (some a) : Option T).Value (h.store a w) = (w, true) ∧
    (FromPtr (some a) : Option T).ValueOr (h.store a w) d = w ∧
    (∀ b : Nat, b ≠ a →
      (FromPtr (some a) : Option T).Value (h.store b w) = (FromPtr (some a) : Option T).Value h ∧
      (FromPtr (some a) : Option T).ValueOr (h.store b w) d =
        (FromPtr (some a) : Option T).ValueOr h d) := by
  refine ⟨rfl, rfl, rfl, rfl, ?_, ?_, fun b hb => ⟨?_, ?_⟩⟩
  · show ((h.store a w).load a, true) = (w, true)
    rw [Heap.load_store_same h a w hl]
  · show (h.store a w).load a = w
    exact Heap.load_store_same h a w hl
  · show ((h.store b w).load a, true) = (h.load a, true)
    rw [Heap.load_store_other h b a w hb]
  · show (h.store b w).load a = h.load a
    exact Heap.load_store_other h b a w hb

/-- The amended C7 on a heap of two cells holding 1 and 5, with `p` at the first:
`Value` reads 1, and reads 2 after `*p = 2`. -/
theorem FromPtr_aliases_witness :
    (⟨[1, 5]⟩ : Heap Int).live 0 ∧
    (FromPtr (some 0) : Option Int).Value ⟨[1, 5]⟩ = (1, true) ∧
    (FromPtr (some 0) : Option Int).Value ((⟨[1, 5]⟩ : Heap Int).store 0 2) = (2, true) ∧
    (FromPtr (some 0) : Option Int).ValueOr ((⟨[1, 5]⟩ : Heap Int).store 0 2) 9 = 2 :=
  ⟨by decide, (FromPtr_aliases ⟨[1, 5]⟩ 0 2 9 (by decide)).2.2.1,
    (FromPtr_aliases ⟨[1, 5]⟩ 0 2 9 (by decide)).2.2.2.2.1,
    (FromPtr_aliases ⟨[1, 5]⟩ 0 2 9 (by decide)).2.2.2.2.2.1⟩

/-- C8: `FromPtr(&v).Value()` returns `(v, true)`, both for the address of a
variable `v` that has just escaped and for any pointer to a cell that holds `v`;
`FromPtr(nil).Value()` returns the zero value and `false`, and `FromPtr(nil)` is
`None`. -/
theorem FromPtr_Value {T : Type} [Inhabited T] (h : Heap T) (v : T) (a : Nat)
    (hv : h.cells[a]? = some v) :
    (FromPtr (some a) : Option T).Value h = (v, true) ∧
    (FromPtr (some (h.alloc v).1) : Option T).Value (h.alloc v).2 = (v, true) ∧
    (FromPtr none : Option T).Value h = (default, false) ∧
    (FromPtr none : Option T) = None ∧
    (FromPtr none : Option T).IsNone = true := by
  refine ⟨?_, ?_, rfl, rfl, rfl⟩
  · show (h.load a, true) = (v, true)
    simp [Heap.load, List.getD_eq_getElem?_getD, hv]
  · show ((h.alloc v).2.load (h.alloc v).1, true) = (v, true)
    rw [Heap.load_alloc]

/-- C8 with `v = 5` in the second of two cells, and the nil pointer at type `int`. -/
theorem FromPtr_Value_witness :
    (⟨[1, 5]⟩ : Heap Int).cells[1]? = some 5 ∧
    (FromPtr (some 1) : Option Int).Value ⟨[1, 5]⟩ = (5, true) ∧
    (FromPtr none : Option Int).Value ⟨[1, 5]⟩ = (0, false) :=
  ⟨by decide, (FromPtr_Value ⟨[1, 5]⟩ 5 1 (by decide)).1,
    (FromPtr_Value ⟨[1, 5]⟩ 5 1 (by decide)).2.2.1⟩

/-- C9: `Some(v).IsSome()` is true and `Some(v).IsNone()` is false for every `v`,
the zero value included; `None[T]().IsSome()` is false; and for every Option `o`,
`IsNone` and `IsZero` are the negation of `IsSome`, so exactly one of `IsSome`,
`IsNone` holds. -/
theorem IsSome_IsNone {T : Type} [Inhabited T] (h : Heap T) (v : T) (o : Option T) :
    (Some h v).1.IsSome = true ∧ (Some h v).1.IsNone = false ∧
    (Some h (default : T)).1.IsSome = true ∧ (Some h (default : T)).1.IsNone = false ∧
    (None : Option T).IsSome = false ∧
    o.IsNone = !o.IsSome ∧ o.IsZero = !o.IsSome ∧
    ((o.IsSome = true ∧ o.IsNone = false) ∨ (o.IsSome = false ∧ o.IsNone = true)) := by
  refine ⟨rfl, rfl, rfl, rfl, rfl, ?_, ?_, ?_⟩
  · obtain ⟨p⟩ := o
    cases p <;> rfl
  · obtain ⟨p⟩ := o
    cases p <;> rfl
  · obtain ⟨p⟩ := o
    cases p
    · exact Or.inr ⟨rfl, rfl⟩
    · exact Or.inl ⟨rfl, rfl⟩

/-- C10: `Some(v).Value()` returns `(v, true)` and `Some(v).ValueOr(d)` returns
`v`, also for the zero value; `None[T]().Value()` returns the zero value and
`false`, and `None[T]().ValueOr(d)` returns `d`; for every Option `o`,
`o.ValueOr(d)` is the first component of `o.Value()` when the flag is true, and
`d` otherwise. -/
theorem Value_ValueOr {T : Type} [Inhabited T] (h : Heap T) (v d : T) (o : Option T) :
    (Some h v).1.Value (Some h v).2 = (v, true) ∧
    (Some h v).1.ValueOr (Some h v).2 d = v ∧
    (Some h (default : T)).1.Value (Some h (default : T)).2 = (default, true) ∧
    (Some h (default : T)).1.ValueOr (Some h (default : T)).2 d = default ∧
    (None : Option T).Value h = (default, false) ∧
    (None : Option T).ValueOr h d = d ∧
    o.ValueOr h d = (if (o.Value h).2 = true then (o.Value h).1 else d) := by
  have hs : ∀ x : T, (Some h x).1.Value (Some h x).2 = (x, true) := by
    intro x
    show ((h.alloc x).2.load (h.alloc x).1, true) = (x, true)
    rw [Heap.load_alloc]
  have hr : ∀ x : T, (Some h x).1.ValueOr (Some h x).2 d = x := by
    intro x
    show (h.alloc x).2.load (h.alloc x).1 = x
    exact Heap.load_alloc h x
  refine ⟨hs v, hr v, hs default, hr default, rfl, rfl, ?_⟩
  obtain ⟨p⟩ := o
  cases p <;> rfl

end option

/-! ## Pointers out of an Option, `Map` and `FlatMap` -/

namespace option

/-- C11: `Ptr` is total; it returns nil exactly when the Option is absent; for a
present Option the pointer it returns refers to the stored value, and
`Some(v).Ptr()` points at a cell holding `v`; `FromPtr(p).Ptr()` is `p` for every
pointer `p`, nil included. -/
theorem Ptr_spec {T : Type} [Inhabited T] (h : Heap T) (o : Option T) (v : T) (p : Pointer) :
    (o.Ptr = none ↔ o.IsNone = true) ∧
    (o.Ptr = none ↔ o.IsSome = false) ∧
    (o.Value h = match o.Ptr with
      | none => (default, false)
      | some a => (h.load a, true)) ∧
    (∃ a : Nat, (Some h v).1.Ptr = some a ∧ (Some h v).2.live a ∧ (Some h v).2.load a = v) ∧
    (FromPtr p : Option T).Ptr = p := by
  refine ⟨?_, ?_, ?_, ⟨h.cells.length, rfl, ?_, Heap.load_alloc h v⟩, rfl⟩
  · obtain ⟨q⟩ := o
    cases q <;> simp [Option.Ptr, Option.IsNone]
  · obtain ⟨q⟩ := o
    cases q <;> simp [Option.Ptr, Option.IsSome]
  · obtain ⟨q⟩ := o
    cases q <;> rfl
  · simp [Some, Heap.alloc, Heap.live]

/-- C12: `Map(None[T](), f)` is absent, leaves the state of `f` as it was (`f` is
not applied) and is the same for every `f`; `Map(Some(v), f)` is present, holds
the value `f` returns on `v`, and leaves the state of one application of `f` to
`v`. With a function that doubles and counts its calls, `Map(Some(3), f)` is
`Some(6)` after one call and `Map(None, f)` is absent after none. -/
theorem Map_spec {T U S : Type} [Inhabited T] [Inhabited U] (hT : Heap T) (hU : Heap U)
    (v : T) (f g : T → S → U × S) (s : S) :
    Map hT hU (None : Option T) f s = (None, hU, s) ∧
    Map hT hU (None : Option T) f s = Map hT hU (None : Option T) g s ∧
    (Map (Some hT v).2 hU (Some hT v).1 f s).1.IsSome = true ∧
    (Map (Some hT v).2 hU (Some hT v).1 f s).1.Value
      (Map (Some hT v).2 hU (Some hT v).1 f s).2.1 = ((f v s).1, true) ∧
    (Map (Some hT v).2 hU (Some hT v).1 f s).2.2 = (f v s).2 ∧
    (let double : Int → Nat → Int × Nat := fun x calls => (x * 2, calls + 1)
     let some3 := Some (⟨[]⟩ : Heap Int) 3
     let r := Map some3.2 (⟨[]⟩ : Heap Int) some3.1 double 0
     r.1.IsSome = true ∧ r.1.Value r.2.1 = (6, true) ∧ r.2.2 = 1 ∧
     Map (⟨[]⟩ : Heap Int) (⟨[]⟩ : Heap Int) None double 0 = (None, ⟨[]⟩, 0)) := by
  have hload : (Some hT v).2.load (hT.cells.length) = v := Heap.load_alloc hT v
  refine ⟨rfl, rfl, ?_, ?_, ?_, by decide⟩
  · simp [Map, Some, Heap.alloc, Option.IsSome]
  · show ((hU.alloc (f ((Some hT v).2.load hT.cells.length) s).1).2.load hU.cells.length, true)
        = ((f v s).1, true)
    rw [hload]
    exact congrArg (fun x => (x, true)) (Heap.load_alloc hU (f v s).1)
  · show (f ((Some hT v).2.load hT.cells.length) s).2 = (f v s).2
    rw [hload]

end option

namespace option

/-- C13: `FlatMap(None[T](), f)` is absent, leaves the state of `f` as it was and
is the same for every `f`; `FlatMap(Some(v), f)` is exactly what `f` returns on
`v`, Option and state, with no wrapping added. With `f(x) = Some(x)` for `x > 0`
and `None` otherwise, `FlatMap(Some(3), f)` is present with 3 and
`FlatMap(Some(-1), f)` is absent. -/
theorem FlatMap_spec {T U W : Type} [Inhabited T] (hT : Heap T) (v : T)
    (f g : T → W → Option U × W) (w : W) :
    FlatMap hT (None : Option T) f w = (None, w) ∧
    FlatMap hT (None : Option T) f w = FlatMap hT (None : Option T) g w ∧
    FlatMap (Some hT v).2 (Some hT v).1 f w = f v w ∧
    (let positive : Int → Heap Int → Option Int × Heap Int :=
        fun x h => if x > 0 then Some h x else (None, h)
     let some3 := Some (⟨[]⟩ : Heap Int) 3
     let r3 := FlatMap some3.2 some3.1 positive some3.2
     let someNeg := Some (⟨[]⟩ : Heap Int) (-1)
     let rNeg := FlatMap someNeg.2 someNeg.1 positive someNeg.2
     (r3.1.IsSome = true ∧ r3.1.Value r3.2 = (3, true)) ∧
     (rNeg.1.IsNone = true ∧ rNeg.1 = None ∧ rNeg.1.Value rNeg.2 = (0, false))) := by
  refine ⟨rfl, rfl, ?_, by decide⟩
  show f ((Some hT v).2.load hT.cells.length) w = f v w
  rw [show (Some hT v).2.load hT.cells.length = v from Heap.load_alloc hT v]

/-- C17: `FlatMap` is associative, for functions `f` and `g` on a common state `w`
out of which `heapU` reads the cells of type `U`: both sides return the same
Option and the same state, hence the same presence and stored value in whatever
heap of `V` cells is read out of the state. And `Some` is its unit:
`FlatMap(o, Some)` has the presence and the stored value of `o`. -/
theorem FlatMap_assoc_unit {T U V W : Type} [Inhabited T] [Inhabited U] [Inhabited V]
    (hT : Heap T) (o : Option T) (f : T → W → Option U × W) (g : U → W → Option V × W)
    (heapU : W → Heap U) (heapV : W → Heap V) (w : W) :
    (FlatMap (heapU (FlatMap hT o f w).2) (FlatMap hT o f w).1 g (FlatMap hT o f w).2 =
      FlatMap hT o (fun x w1 => FlatMap (heapU (f x w1).2) (f x w1).1 g (f x w1).2) w) ∧
    ((FlatMap (heapU (FlatMap hT o f w).2) (FlatMap hT o f w).1 g (FlatMap hT o f w).2).1.IsSome =
      (FlatMap hT o (fun x w1 => FlatMap (heapU (f x w1).2) (f x w1).1 g (f x w1).2) w).1.IsSome) ∧
    ((FlatMap (heapU (FlatMap hT o f w).2) (FlatMap hT o f w).1 g (FlatMap hT o f w).2).1.Value
        (heapV (FlatMap (heapU (FlatMap hT o f w).2) (FlatMap hT o f w).1 g
          (FlatMap hT o f w).2).2) =
      (FlatMap hT o (fun x w1 => FlatMap (heapU (f x w1).2) (f x w1).1 g (f x w1).2) w).1.Value
        (heapV (FlatMap hT o (fun x w1 =>
          FlatMap (heapU (f x w1).2) (f x w1).1 g (f x w1).2) w).2)) ∧
    ((FlatMap hT o (fun x h1 => Some h1 x) hT).1.IsSome = o.IsSome ∧
      (FlatMap hT o (fun x h1 => Some h1 x) hT).1.Value
        (FlatMap hT o (fun x h1 => Some h1 x) hT).2 = o.Value hT) := by
  have hassoc : FlatMap (heapU (FlatMap hT o f w).2) (FlatMap hT o f w).1 g (FlatMap hT o f w).2 =
      FlatMap hT o (fun x w1 => FlatMap (heapU (f x w1).2) (f x w1).1 g (f x w1).2) w := by
    obtain ⟨q⟩ := o
    cases q <;> rfl
  refine ⟨hassoc, by rw [hassoc], by rw [hassoc], ?_, ?_⟩
  · obtain ⟨q⟩ := o
    cases q <;> rfl
  · obtain ⟨q⟩ := o
    cases q with
    | none => rfl
    | some a =>
      show ((hT.alloc (hT.load a)).2.load (hT.alloc (hT.load a)).1, true) = (hT.load a, true)
      rw [Heap.load_alloc]

/-- C18: `Map(o, f)` is `FlatMap(o, x -> Some(f(x)))`, Option, heap and state;
`Map(Map(o, f), g)` returns the same Option, heap and state as
`Map(o, x -> g(f(x)))`, hence the same presence and stored value; `Map(o, identity)`
has the presence and the stored value of `o`; and `Map` preserves presence. -/
theorem Map_laws {T U V S : Type} [Inhabited T] [Inhabited U] [Inhabited V]
    (hT : Heap T) (hU : Heap U) (hV : Heap V) (o : Option T)
    (f : T → S → U × S) (g : U → S → V × S) (s : S) :
    (Map hT hU o f s =
      FlatMap hT o (fun x (w : Heap U × S) =>
        ((Some w.1 (f x w.2).1).1, (Some w.1 (f x w.2).1).2, (f x w.2).2)) (hU, s)) ∧
    (Map (Map hT hU o f s).2.1 hV (Map hT hU o f s).1 g (Map hT hU o f s).2.2 =
      Map hT hV o (fun x s0 => g (f x s0).1 (f x s0).2) s) ∧
    ((Map (Map hT hU o f s).2.1 hV (Map hT hU o f s).1 g (Map hT hU o f s).2.2).1.Value
        (Map (Map hT hU o f s).2.1 hV (Map hT hU o f s).1 g (Map hT hU o f s).2.2).2.1 =
      (Map hT hV o (fun x s0 => g (f x s0).1 (f x s0).2) s).1.Value
        (Map hT hV o (fun x s0 => g (f x s0).1 (f x s0).2) s).2.1) ∧
    ((Map hT hT o (fun x s0 => (x, s0)) s).1.IsSome = o.IsSome ∧
      (Map hT hT o (fun x s0 => (x, s0)) s).1.Value
        (Map hT hT o (fun x s0 => (x, s0)) s).2.1 = o.Value hT ∧
      (Map hT hT o (fun x s0 => (x, s0)) s).2.2 = s) ∧
    (Map hT hU o f s).1.IsSome = o.IsSome := by
  have hcomp : Map (Map hT hU o f s).2.1 hV (Map hT hU o f s).1 g (Map hT hU o f s).2.2 =
      Map hT hV o (fun x s0 => g (f x s0).1 (f x s0).2) s := by
    obtain ⟨q⟩ := o
    cases q with
    | none => rfl
    | some a =>
      show ((Some hV (g ((hU.alloc (f (hT.load a) s).1).2.load (hU.alloc (f (hT.load a) s).1).1)
          (f (hT.load a) s).2).1).1,
        (Some hV (g ((hU.alloc (f (hT.load a) s).1).2.load (hU.alloc (f (hT.load a) s).1).1)
          (f (hT.load a) s).2).1).2,
        (g ((hU.alloc (f (hT.load a) s).1).2.load (hU.alloc (f (hT.load a) s).1).1)
          (f (hT.load a) s).2).2) = _
      rw [Heap.load_alloc]
      rfl
  refine ⟨?_, hcomp, by rw [hcomp], ⟨?_, ?_, ?_⟩, ?_⟩
  · obtain ⟨q⟩ := o
    cases q <;> rfl
  · obtain ⟨q⟩ := o
    cases q <;> rfl
  · obtain ⟨q⟩ := o
    cases q with
    | none => rfl
    | some a =>
      show ((hT.alloc (hT.load a)).2.load (hT.alloc (hT.load a)).1, true) = (hT.load a, true)
      rw [Heap.load_alloc]
  · obtain ⟨q⟩ := o
    cases q <;> rfl
  · obtain ⟨q⟩ := o
    cases q <;> rfl

end option

/-! ## Failed and lenient decoding -/

namespace option

open json

/-- C15: a call of `UnmarshalJSON` that returns a non-nil error leaves the
receiver and the heap as they were, hence the same presence and the same stored
value: the slot is written only on the two paths that return nil. -/
theorem UnmarshalJSON_error_keeps {T E : Type} [Inhabited T]
    (unmarshal : Bytes → Except E T) (h : Heap T) (o : Option T) (data : Bytes)
    (herr : (o.UnmarshalJSON unmarshal h data).1 ≠ none) :
    (o.UnmarshalJSON unmarshal h data).2.1 = o ∧
    (o.UnmarshalJSON unmarshal h data).2.2 = h ∧
    (o.UnmarshalJSON unmarshal h data).2.1.IsSome = o.IsSome ∧
    (o.UnmarshalJSON unmarshal h data).2.1.Value (o.UnmarshalJSON unmarshal h data).2.2 =
      o.Value h := by
  have hkeep : (o.UnmarshalJSON unmarshal h data).2 = (o, h) := by
    unfold Option.UnmarshalJSON at herr ⊢
    cases hq : bytes.Equal (bytes.TrimSpace data) nullLit
    · cases hd : unmarshal data with
      | error err => simp [hd]
      | ok v => simp [hq, hd] at herr
    · simp [hq] at herr
  rw [hkeep]
  exact ⟨rfl, rfl, rfl, rfl⟩

/-- C15 at element type `int`: `"abc"` is rejected, and the Option that was
present with 5 is present with 5 afterwards; so is an absent one absent. -/
theorem UnmarshalJSON_error_keeps_witness :
    ((FromPtr (some 0) : Option Int).UnmarshalJSON UnmarshalInt ⟨[5]⟩
        [0x22, 0x61, 0x62, 0x63, 0x22]).1 ≠ none ∧
    ((FromPtr (some 0) : Option Int).UnmarshalJSON UnmarshalInt ⟨[5]⟩
        [0x22, 0x61, 0x62, 0x63, 0x22]).2.1.Value
      ((FromPtr (some 0) : Option Int).UnmarshalJSON UnmarshalInt ⟨[5]⟩
        [0x22, 0x61, 0x62, 0x63, 0x22]).2.2 = (5, true) ∧
    ((None : Option Int).UnmarshalJSON UnmarshalInt ⟨[5]⟩
        [0x22, 0x61, 0x62, 0x63, 0x22]).2.1.IsSome = false :=
  ⟨by decide,
    (UnmarshalJSON_error_keeps UnmarshalInt ⟨[5]⟩ (FromPtr (some 0))
      [0x22, 0x61, 0x62, 0x63, 0x22] (by decide)).2.2.2,
    (UnmarshalJSON_error_keeps UnmarshalInt ⟨[5]⟩ None
      [0x22, 0x61, 0x62, 0x63, 0x22] (by decide)).2.2.1⟩

/-- C16: `bytes.TrimSpace` strips the vertical tab 0x0B and the form feed 0x0C,
which are not white space of JSON and cannot begin a JSON value. A text made of
one of them followed by `null` is not valid JSON and the standard decoder for
`int` rejects it, yet `UnmarshalJSON` returns a nil error on it and leaves the
Option absent, whatever the decoder of `T` and the earlier state. -/
theorem UnmarshalJSON_accepts_non_json {T E : Type} (unmarshal : Bytes → Except E T)
    (h : Heap T) (o : Option T) :
    (bytes.asciiSpace 0x0B = true ∧ isSpace 0x0B = false ∧
      bytes.asciiSpace 0x0C = true ∧ isSpace 0x0C = false) ∧
    (beginsText [0x0B, 0x6E, 0x75, 0x6C, 0x6C] = false ∧
      UnmarshalInt [0x0B, 0x6E, 0x75, 0x6C, 0x6C] = .error JsonError.decode ∧
      o.UnmarshalJSON unmarshal h [0x0B, 0x6E, 0x75, 0x6C, 0x6C] = (none, None, h) ∧
      (o.UnmarshalJSON unmarshal h [0x0B, 0x6E, 0x75, 0x6C, 0x6C]).2.1.IsNone = true) ∧
    (beginsText [0x0C, 0x6E, 0x75, 0x6C, 0x6C] = false ∧
      UnmarshalInt [0x0C, 0x6E, 0x75, 0x6C, 0x6C] = .error JsonError.decode ∧
      o.UnmarshalJSON unmarshal h [0x0C, 0x6E, 0x75, 0x6C, 0x6C] = (none, None, h) ∧
      (o.UnmarshalJSON unmarshal h [0x0C, 0x6E, 0x75, 0x6C, 0x6C]).2.1.IsNone = true) := by
  have hvt : bytes.Equal (bytes.TrimSpace [0x0B, 0x6E, 0x75, 0x6C, 0x6C]) nullLit = true := by
    decide
  have hff : bytes.Equal (bytes.TrimSpace [0x0C, 0x6E, 0x75, 0x6C, 0x6C]) nullLit = true := by
    decide
  refine ⟨by decide, ⟨by decide, by decide, ?_, ?_⟩, ⟨by decide, by decide, ?_, ?_⟩⟩
  · simp [Option.UnmarshalJSON, hvt, None]
  · simp [Option.UnmarshalJSON, hvt, Option.IsNone]
  · simp [Option.UnmarshalJSON, hff, None]
  · simp [Option.UnmarshalJSON, hff, Option.IsNone]

end option

/-! ## The `ecdsa` wrapper -/

namespace ecdsa

open crypto.ecdsa (PrivateKey PublicKeyPointer)

/-- C14: `Sign` on a non-nil key returns what `SignASN1` returns on the key `*priv`
and the SHA-256 digest of the whole message, and `Verify` on `&priv.PublicKey` (or
on a public key of its own) returns what `VerifyASN1` returns on that key, the
digest of the whole message and the signature: both hash the message identically
before they call the primitive. Hence, when `VerifyASN1` accepts what `SignASN1`
produces for the key at `priv` and the same digest, a signature that `Sign`
returns with a nil error is verified under `&priv.PublicKey`, the pointer that
`PublicKey(priv)` returns. -/
theorem Sign_Verify {E R : Type} (Sum256 : Bytes → Bytes)
    (SignASN1 : R → PrivateKey → Bytes → Bytes × GoError E)
    (VerifyASN1 : crypto.ecdsa.PublicKey → Bytes → Bytes → Bool)
    (hk : Heap PrivateKey) (hp : Heap crypto.ecdsa.PublicKey) (rnd : R) (a b : Nat)
    (m sig : Bytes) :
    Sign Sum256 SignASN1 hk rnd (some a) m =
      ((SignASN1 rnd (hk.load a) (Sum256 m)).1,
        (SignASN1 rnd (hk.load a) (Sum256 m)).2.map Error.lib) ∧
    Verify Sum256 VerifyASN1 hk hp (.embedded a) m sig =
      VerifyASN1 (hk.load a).PublicKey (Sum256 m) sig ∧
    Verify Sum256 VerifyASN1 hk hp (.cell b) m sig = VerifyASN1 (hp.load b) (Sum256 m) sig ∧
    ((∀ (r : R) (d s : Bytes), SignASN1 r (hk.load a) d = (s, none) →
        VerifyASN1 (hk.load a).PublicKey d s = true) →
      Sign Sum256 SignASN1 hk rnd (some a) m = (sig, none) →
      Verify Sum256 VerifyASN1 hk hp (.embedded a) m sig = true ∧
      Verify Sum256 VerifyASN1 hk hp
        (PublicKey (some a) : PublicKeyPointer × GoError (Error E)).1 m sig = true) := by
  refine ⟨rfl, rfl, rfl, fun hprim hsign => ?_⟩
  have hs : SignASN1 rnd (hk.load a) (Sum256 m) = (sig, none) := by
    simp only [Sign] at hsign
    cases hr : SignASN1 rnd (hk.load a) (Sum256 m) with
    | mk s0 e0 =>
      rw [hr] at hsign
      cases e0 with
      | none => simpa using hsign
      | some e => simp at hsign
  have hv : Verify Sum256 VerifyASN1 hk hp (.embedded a) m sig = true :=
    hprim rnd (Sum256 m) sig hs
  exact ⟨hv, hv⟩

/-- C14 on a key in the first cell whose public `X` is twice its secret `D`, with
stand-ins for the primitives: a digest of length and byte sum, a signature that
puts the random byte and twice `D` in front of the digest, and a verification
that checks `X` and the digest. At this key the verification accepts what the
signing produces, and the signature of the message 1, 2, 3 is verified. -/
theorem Sign_Verify_witness :
    (∀ (r : Nat) (d s : Bytes),
      (fun (r0 : Nat) (k0 : PrivateKey) (d0 : Bytes) =>
          ((r0 :: 2 * k0.D.natAbs :: d0, none) : Bytes × GoError Unit)) r
          ((⟨[⟨⟨256, 14, 4⟩, 7⟩]⟩ : Heap PrivateKey).load 0) d = (s, none) →
        (fun (pk : crypto.ecdsa.PublicKey) (d0 s0 : Bytes) =>
          s0.drop 1 == pk.X.natAbs :: d0)
          ((⟨[⟨⟨256, 14, 4⟩, 7⟩]⟩ : Heap PrivateKey).load 0).PublicKey d s = true) ∧
    Sign (fun msg => [msg.length, msg.sum % 256])
      (fun (r0 : Nat) (k0 : PrivateKey) (d0 : Bytes) =>
        ((r0 :: 2 * k0.D.natAbs :: d0, none) : Bytes × GoError Unit))
      ⟨[⟨⟨256, 14, 4⟩, 7⟩]⟩ 9 (some 0) [1, 2, 3] = ([9, 14, 3, 6], none) ∧
    Verify (fun msg => [msg.length, msg.sum % 256])
      (fun (pk : crypto.ecdsa.PublicKey) (d0 s0 : Bytes) => s0.drop 1 == pk.X.natAbs :: d0)
      ⟨[⟨⟨256, 14, 4⟩, 7⟩]⟩ ⟨[]⟩ (.embedded 0) [1, 2, 3] [9, 14, 3, 6] = true :=
  ⟨fun r d s hs => by
      simp only [Prod.mk.injEq, and_true] at hs
      subst hs
      exact beq_self_eq_true (14 :: d),
    by decide,
    ((Sign_Verify (fun msg => [msg.length, msg.sum % 256])
      (fun (r0 : Nat) (k0 : PrivateKey) (d0 : Bytes) =>
        ((r0 :: 2 * k0.D.natAbs :: d0, none) : Bytes × GoError Unit))
      (fun (pk : crypto.ecdsa.PublicKey) (d0 s0 : Bytes) => s0.drop 1 == pk.X.natAbs :: d0)
      ⟨[⟨⟨256, 14, 4⟩, 7⟩]⟩ ⟨[]⟩ 9 0 0 [1, 2, 3] [9, 14, 3, 6]).2.2.2
      (fun r d s hs => by
        simp only [Prod.mk.injEq, and_true] at hs
        subst hs
        exact beq_self_eq_true (14 :: d))
      (by decide)).1⟩

/-- C19: on a nil key no function reads a key: `Sign(nil, m)` returns a nil
signature and a non-nil error, `PublicKey(nil)` returns nil and a non-nil error,
`Verify(nil, m, sig)` returns false, whatever the heap and the primitives are; for
a non-nil `priv`, `PublicKey(priv)` returns the address of the public key embedded
in `*priv` and a nil error. -/
theorem nil_key_guards {E R : Type} (Sum256 : Bytes → Bytes)
    (SignASN1 : R → PrivateKey → Bytes → Bytes × GoError E)
    (VerifyASN1 : crypto.ecdsa.PublicKey → Bytes → Bytes → Bool)
    (hk : Heap PrivateKey) (hp : Heap crypto.ecdsa.PublicKey) (rnd : R) (a : Nat)
    (m sig : Bytes) :
    (Sign Sum256 SignASN1 hk rnd none m = ([], some (Error.New "ecdsa: private key is nil")) ∧
      (Sign Sum256 SignASN1 hk rnd none m).1 = [] ∧
      (Sign Sum256 SignASN1 hk rnd none m).2 ≠ none) ∧
    ((PublicKey none : PublicKeyPointer × GoError (Error E)).1 = .nil ∧
      (PublicKey none : PublicKeyPointer × GoError (Error E)).2 ≠ none) ∧
    Verify Sum256 VerifyASN1 hk hp .nil m sig = false ∧
    ((PublicKey (some a) : PublicKeyPointer × GoError (Error E)) = (.embedded a, none) ∧
      (PublicKey (some a) : PublicKeyPointer × GoError (Error E)).1.load hk hp =
        (hk.load a).PublicKey) := by
  refine ⟨⟨rfl, rfl, ?_⟩, ⟨rfl, ?_⟩, rfl, rfl, rfl⟩
  · simp [Sign]
  · simp [PublicKey]

end ecdsa
